import Mathlib

/-!
Verification development for the spreadsheet fan-out / merge service
(src/api/main.py together with the shared helpers of src/app.py).

The embedding models:
* cell values as strings or integers (`Val`);
* openpyxl worksheets as a title plus a sparse map from (row, column)
  to cells, rows and columns 1-based as in openpyxl;
* pandas data frames as a list of column names plus a list of rows of
  optional values; a `none` cell models a missing spreadsheet cell,
  which pandas represents as NaN — a float, and therefore not Python
  `None`.  Where the program distinguishes the two (the
  `row.iloc[k] if len(row) > k else None` fallback feeding the
  `is not None` guards), the embedding uses `Option (Option Val)`:
  the outer `none` is Python `None`, `some none` is a NaN cell;
* pandas `groupby(..., sort=False)` as a fold that keeps groups in
  first-seen order of their keys and drops rows with a missing (NaN)
  key, which is how groupby's `dropna` treats NaN.
-/

set_option maxHeartbeats 1000000

/-- A cell value as read from a spreadsheet: a string or an integer.
Floating point values are outside the scope of this development. -/
inductive Val where
  | str (s : String)
  | num (n : Int)
deriving DecidableEq

/-- Python `str()` applied to a cell value. -/
def valToString : Val → String
  | .str s => s
  | .num n => toString n

/-- The style attributes of an openpyxl cell that the code manipulates:
the five copied attributes plus `fill`, each modelled abstractly. -/
structure CellStyle where
  font : String
  border : String
  alignment : String
  number_format : String
  protection : String
  fill : String
deriving DecidableEq

def defaultStyle : CellStyle := ⟨"", "", "", "", "", ""⟩

/-- An openpyxl cell: an optional value plus style attributes. -/
structure Cell where
  value : Option Val
  style : CellStyle
deriving DecidableEq

def emptyCell : Cell := ⟨none, defaultStyle⟩

/-- An openpyxl worksheet: a title and a sparse cell map keyed by
(row, column), both 1-based; missing keys denote untouched blank cells. -/
structure Worksheet where
  title : String
  cells : List ((Nat × Nat) × Cell)
deriving DecidableEq

/-- Reading a cell (`ws.cell(row=r, column=c)` without assignment):
the stored cell, or a blank default. -/
def getCell (ws : Worksheet) (r c : Nat) : Cell :=
  match ws.cells.find? (fun e => e.1 == (r, c)) with
  | some e => e.2
  | none => emptyCell

/-- Overwriting a cell; the new binding shadows any previous one. -/
def setCell (ws : Worksheet) (r c : Nat) (cell : Cell) : Worksheet :=
  { ws with cells := ((r, c), cell) :: ws.cells }

/-- `copy_style_no_fill` (src/api/main.py lines 142-148, identically
src/app.py lines 19-25): copy font, border, alignment, number format and
protection from the source cell to the destination cell; the fill
attribute and the destination value are deliberately left alone.
Python's `copy()` on each attribute is a by-value copy, which the pure
embedding reflects by constructing a fresh record. -/
def copy_style_no_fill (src dst : Cell) : Cell :=
  { dst with style := { dst.style with
      font := src.style.font
      border := src.style.border
      alignment := src.style.alignment
      number_format := src.style.number_format
      protection := src.style.protection } }

/-- C6: the style copy transfers exactly font, border, alignment,
number format and protection; it never copies fill, never changes the
destination value, and is idempotent (copying twice equals copying
once).  The source cell is a read-only argument, so the operation can
never mutate it; the copies are by value, so later changes to the
destination are changes to a fresh record, never to the source. -/
theorem copy_style_no_fill_contract (src dst : Cell) :
    (copy_style_no_fill src dst).style.font = src.style.font
    ∧ (copy_style_no_fill src dst).style.border = src.style.border
    ∧ (copy_style_no_fill src dst).style.alignment = src.style.alignment
    ∧ (copy_style_no_fill src dst).style.number_format = src.style.number_format
    ∧ (copy_style_no_fill src dst).style.protection = src.style.protection
    ∧ (copy_style_no_fill src dst).style.fill = dst.style.fill
    ∧ (copy_style_no_fill src dst).value = dst.value
    ∧ copy_style_no_fill src (copy_style_no_fill src dst) = copy_style_no_fill src dst :=
  ⟨rfl, rfl, rfl, rfl, rfl, rfl, rfl, rfl⟩

/-- Sheet name computation for an inner-group key (src/api/main.py lines
198-200): `str(d_value)` truncated to its first 31 characters when
longer than 31. -/
def sheet_name_d (d : Val) : String :=
  let s := valToString d
  if 31 < s.length then ⟨s.data.take 31⟩ else s

/-- C8: the computed output sheet name is the key's string form
truncated to at most 31 characters; a name longer than 31 characters is
cut to exactly its first 31 characters, a shorter one is kept as is. -/
theorem sheet_name_d_truncation (d : Val) :
    (31 < (valToString d).length →
      (sheet_name_d d).length = 31
      ∧ (sheet_name_d d).data = (valToString d).data.take 31)
    ∧ ((valToString d).length ≤ 31 → sheet_name_d d = valToString d) := by
  constructor
  · intro h
    have he : sheet_name_d d = ⟨(valToString d).data.take 31⟩ := by
      simp [sheet_name_d, h]
    rw [he]
    have h1 : (String.mk ((valToString d).data.take 31)).length
        = ((valToString d).data.take 31).length := rfl
    have h2 : (valToString d).data.length = (valToString d).length := rfl
    refine ⟨?_, rfl⟩
    rw [h1, List.length_take]
    omega
  · intro h
    simp [sheet_name_d, Nat.not_lt.2 h]

def longKeyExample : String := "abcdefghijklmnopqrstuvwxyz0123456789abcd"

theorem sheet_name_d_truncation_witness :
    31 < (valToString (Val.str longKeyExample)).length
    ∧ (sheet_name_d (Val.str longKeyExample)).length = 31 :=
  ⟨by decide, ((sheet_name_d_truncation (Val.str longKeyExample)).1 (by decide)).1⟩

/-! ## The column-spec parser (src/api/main.py lines 105-121) -/

/-- Python `str.split(',')` on the character list of a string: cut at
every comma, keeping empty pieces (so the empty string gives `[""]`). -/
def splitOnComma : List Char → List (List Char)
  | [] => [[]]
  | c :: cs =>
    let r := splitOnComma cs
    if c = ',' then [] :: r
    else (c :: r.headD []) :: r.tail

/-- ASCII whitespace, the whitespace the claims exercise. -/
def isSpaceChar (c : Char) : Bool := c = ' ' || c = '\t' || c = '\n' || c = '\r'

/-- Python `str.strip()`: drop leading and trailing whitespace. -/
def pyStrip (l : List Char) : List Char :=
  ((l.dropWhile isSpaceChar).reverse.dropWhile isSpaceChar).reverse

/-- `[p.strip() for p in usecols_str.split(',') if p.strip() != '']`. -/
def pyTokens (s : String) : List String :=
  (((splitOnComma s.data).map pyStrip).filter (fun t => t != [])).map (fun t => ⟨t⟩)

/-- Python `str.isdigit` restricted to ASCII decimal digits (the only
digits the claims exercise): non-empty and all characters are digits. -/
def pyIsDigit (s : String) : Bool := s != "" && s.data.all (·.isDigit)

/-- Python `int()` on a digit string. -/
def strToNat (s : String) : Nat :=
  s.data.foldl (fun a c => a * 10 + (c.toNat - 48)) 0

def errNotDigitMsg (p : String) : String :=
  "非法列索引: " ++ p ++ ". 请使用逗号分隔的正整数，例如 \x271,4,5\x27."

def errNonPositiveMsg (p : String) : String := "列索引必须 >= 1: " ++ p

/-- The validation loop of `parse_numeric_positions`: for each token, a
non-digit token raises; a token below 1 raises; otherwise the 0-based
position `n - 1` is accumulated in order. -/
def parsePositions : List String → Except String (List Nat)
  | [] => .ok []
  | p :: ps =>
    if pyIsDigit p then
      if strToNat p < 1 then .error (errNonPositiveMsg p)
      else (parsePositions ps).map (fun l => (strToNat p - 1) :: l)
    else .error (errNotDigitMsg p)

/-- `parse_numeric_positions` (src/api/main.py lines 105-121): split on
commas, strip, drop empty tokens, then validate and convert each token. -/
def parse_numeric_positions (usecols_str : String) : Except String (List Nat) :=
  parsePositions (pyTokens usecols_str)

theorem parsePositions_ok (ts : List String)
    (h : ∀ t ∈ ts, pyIsDigit t = true ∧ 1 ≤ strToNat t) :
    parsePositions ts = .ok (ts.map (fun t => strToNat t - 1)) := by
  induction ts with
  | nil => rfl
  | cons p ps ih =>
    have hp := h p (by simp)
    have hrec := ih (fun t ht => h t (by simp [ht]))
    simp [parsePositions, hp.1, Nat.not_lt.2 hp.2, hrec, Except.map]

theorem parsePositions_error (pre : List String) (t : String) (post : List String)
    (hpre : ∀ u ∈ pre, pyIsDigit u = true ∧ 1 ≤ strToNat u)
    (hbad : ¬ (pyIsDigit t = true ∧ 1 ≤ strToNat t)) :
    parsePositions (pre ++ t :: post)
      = .error (if pyIsDigit t then errNonPositiveMsg t else errNotDigitMsg t) := by
  induction pre with
  | nil =>
    by_cases hd : pyIsDigit t
    · have hlt : strToNat t < 1 := by
        by_contra hge
        exact hbad ⟨hd, Nat.not_lt.1 hge⟩
      simp [parsePositions, hd, hlt]
    · simp [parsePositions, hd]
  | cons u us ih =>
    have hu := hpre u (by simp)
    have hrec := ih (fun v hv => hpre v (by simp [hv]))
    simp [parsePositions, hu.1, Nat.not_lt.2 hu.2, hrec, Except.map]

/-- C4: the column-spec parser trims whitespace and drops empty tokens;
if every remaining token is a positive-integer literal it returns the
ordered list of 0-based positions (same length, input order, no sort,
no dedup; empty input gives the empty list); otherwise it fails with an
error message naming the first offending token (either the non-digit
message or the below-one message, both of which embed the token). -/
theorem parse_numeric_positions_contract (s : String) :
    ((∀ t ∈ pyTokens s, pyIsDigit t = true ∧ 1 ≤ strToNat t) →
      parse_numeric_positions s = .ok ((pyTokens s).map (fun t => strToNat t - 1)))
    ∧ (∀ pre t post, pyTokens s = pre ++ t :: post →
        (∀ u ∈ pre, pyIsDigit u = true ∧ 1 ≤ strToNat u) →
        ¬ (pyIsDigit t = true ∧ 1 ≤ strToNat t) →
        parse_numeric_positions s
          = .error (if pyIsDigit t then errNonPositiveMsg t else errNotDigitMsg t))
    ∧ (pyTokens s = [] → parse_numeric_positions s = .ok []) := by
  refine ⟨fun h => parsePositions_ok _ h, fun pre t post hsplit hpre hbad => ?_, fun h => ?_⟩
  · unfold parse_numeric_positions
    rw [hsplit]
    exact parsePositions_error pre t post hpre hbad
  · unfold parse_numeric_positions
    rw [h]
    rfl

theorem parse_numeric_positions_witness :
    (∀ t ∈ pyTokens "4,5,6,9,11", pyIsDigit t = true ∧ 1 ≤ strToNat t)
    ∧ parse_numeric_positions "4,5,6,9,11" = .ok [3, 4, 5, 8, 10] := by
  refine ⟨by decide, ?_⟩
  exact ((parse_numeric_positions_contract "4,5,6,9,11").1 (by decide)).trans (by rfl)

/-! ## The tabular extractor (src/api/main.py lines 123-140) -/

/-- A pandas data frame: named columns plus rows of optional cell
values (`none` models a missing cell). -/
structure DataFrame where
  colNames : List String
  rows : List (List (Option Val))
deriving DecidableEq

def DataFrame.ncols (df : DataFrame) : Nat := df.colNames.length

/-- pandas column naming for header cell `i`: the stringified header
value, or the positional fallback name for an absent header cell. -/
def headerName (i : Nat) : Option Val → String
  | some v => valToString v
  | none => "Unnamed: " ++ toString i

def enumNames (i : Nat) : List (Option Val) → List String
  | [] => []
  | c :: cs => headerName i c :: enumNames (i + 1) cs

/-- `pd.read_excel(..., header=h)` on a rectangular grid: column names
come from row `h`, data rows are the rows after it. -/
def readSheet (grid : List (List (Option Val))) (h : Nat) : DataFrame :=
  { colNames := enumNames 0 (grid.getD h []),
    rows := grid.drop (h + 1) }

def errColMsg (oneBased total : Nat) : String :=
  "请求的列索引 " ++ toString oneBased ++ " 超出表格列数 " ++ toString total

/-- `get_df_by_position_stream` after the named sheet has been loaded
into `df_all`: `max_idx = shape[1] - 1`; the first requested position
with `pos > max_idx` (equivalently `ncols ≤ pos`) raises an IndexError
naming the 1-based index `pos + 1`; otherwise `df_all.iloc[:, positions]`
selects the requested columns in requested order. -/
def get_df_by_position_stream (df_all : DataFrame) (positions : List Nat) :
    Except String DataFrame :=
  match positions.find? (fun pos => decide (df_all.ncols ≤ pos)) with
  | some pos => .error (errColMsg (pos + 1) df_all.ncols)
  | none =>
    .ok { colNames := positions.map (fun p => df_all.colNames.getD p ""),
          rows := df_all.rows.map (fun r => positions.map (fun p => r.getD p none)) }

theorem enumNames_length (i : Nat) (l : List (Option Val)) :
    (enumNames i l).length = l.length := by
  induction l generalizing i with
  | nil => rfl
  | cons c cs ih => simp [enumNames, ih]

theorem enumNames_getD (i p : Nat) (l : List (Option Val)) (hp : p < l.length) :
    (enumNames i l).getD p "" = headerName (i + p) (l.getD p none) := by
  induction l generalizing i p with
  | nil => simp at hp
  | cons c cs ih =>
    cases p with
    | zero => simp [enumNames]
    | succ q =>
      have hq : q < cs.length := by simpa using Nat.lt_of_succ_lt_succ hp
      have harith : i + (q + 1) = (i + 1) + q := by omega
      rw [show enumNames i (c :: cs) = headerName i c :: enumNames (i + 1) cs from rfl,
        List.getD_cons_succ, List.getD_cons_succ, harith]
      exact ih (i + 1) q hq

theorem find?_first_exceeding (n : Nat) (pre : List Nat) (pos : Nat) (post : List Nat)
    (hpre : ∀ q ∈ pre, q < n) (hpos : n ≤ pos) :
    (pre ++ pos :: post).find? (fun q => decide (n ≤ q)) = some pos := by
  induction pre with
  | nil => simp [List.find?, hpos]
  | cons a as ih =>
    have ha := hpre a (by simp)
    have hrec := ih (fun q hq => hpre q (by simp [hq]))
    simp [List.find?, Nat.not_le.2 ha, hrec]

/-- C5: extraction fails with an error naming the offending 1-based
index when a requested 0-based position exceeds the sheet's maximum
valid column index (the first such position in request order is the one
reported); otherwise it returns exactly the requested columns, in
requested order, with column names taken from the header row. -/
theorem get_df_by_position_contract (grid : List (List (Option Val))) (h : Nat)
    (positions : List Nat) :
    ((∀ p ∈ positions, p < (readSheet grid h).ncols) →
      get_df_by_position_stream (readSheet grid h) positions
        = .ok { colNames := positions.map (fun p => (readSheet grid h).colNames.getD p ""),
                rows := (readSheet grid h).rows.map
                  (fun r => positions.map (fun p => r.getD p none)) }
      ∧ ∀ p ∈ positions,
          (readSheet grid h).colNames.getD p ""
            = headerName p ((grid.getD h []).getD p none))
    ∧ (∀ pre pos post, positions = pre ++ pos :: post →
        (∀ q ∈ pre, q < (readSheet grid h).ncols) →
        (readSheet grid h).ncols ≤ pos →
        get_df_by_position_stream (readSheet grid h) positions
          = .error (errColMsg (pos + 1) (readSheet grid h).ncols)) := by
  constructor
  · intro hall
    have hnone : positions.find? (fun pos => decide ((readSheet grid h).ncols ≤ pos)) = none := by
      rw [List.find?_eq_none]
      intro p hp
      simpa using Nat.not_le.2 (hall p hp)
    constructor
    · unfold get_df_by_position_stream
      rw [hnone]
    · intro p hp
      have hlt : p < (grid.getD h []).length := by
        have := hall p hp
        simpa [readSheet, DataFrame.ncols, enumNames_length] using this
      simpa [readSheet] using enumNames_getD 0 p (grid.getD h []) hlt
  · intro pre pos post hsplit hpre hpos
    unfold get_df_by_position_stream
    rw [hsplit, find?_first_exceeding _ pre pos post hpre hpos]

def gridW : List (List (Option Val)) :=
  [[some (.str "h1"), some (.str "h2"), some (.str "h3")],
   [some (.num 1), none, some (.num 3)]]

theorem get_df_by_position_witness :
    (∀ p ∈ [2, 0], p < (readSheet gridW 0).ncols)
    ∧ get_df_by_position_stream (readSheet gridW 0) [2, 0]
        = .ok { colNames := ["h3", "h1"], rows := [[some (.num 3), some (.num 1)]] } := by
  refine ⟨by decide, ?_⟩
  exact (((get_df_by_position_contract gridW 0 [2, 0]).1 (by decide)).1).trans (by rfl)

/-! ## Grouping (pandas `groupby(..., sort=False)`) -/

/-- Append a row to its key's group; the group is created at the end of
the group list the first time the key is seen. -/
def addToGroups (gs : List (Val × List (List (Option Val)))) (k : Val)
    (r : List (Option Val)) : List (Val × List (List (Option Val))) :=
  match gs with
  | [] => [(k, [r])]
  | g :: rest => if g.1 = k then (g.1, g.2 ++ [r]) :: rest else g :: addToGroups rest k r

/-- pandas `groupby(key, sort=False)`: rows with a missing key are
dropped; groups appear in first-seen order of their distinct keys. -/
def groupbyOpt (rows : List (List (Option Val)))
    (key : List (Option Val) → Option Val) : List (Val × List (List (Option Val))) :=
  rows.foldl (fun gs r => match key r with | none => gs | some k => addToGroups gs k r) []

/-- First-seen deduplication of a key list. -/
def dedupFirstSeen (l : List Val) : List Val :=
  l.foldl (fun acc k => if k ∈ acc then acc else acc ++ [k]) []

theorem addToGroups_fst (gs : List (Val × List (List (Option Val)))) (k : Val)
    (r : List (Option Val)) :
    (addToGroups gs k r).map Prod.fst
      = if k ∈ gs.map Prod.fst then gs.map Prod.fst else gs.map Prod.fst ++ [k] := by
  induction gs with
  | nil => simp [addToGroups]
  | cons g rest ih =>
    by_cases hk : g.1 = k
    · simp [addToGroups, hk]
    · by_cases hmem : k ∈ rest.map Prod.fst
      · simp [addToGroups, hk, ih, hmem, Ne.symm hk]
      · simp [addToGroups, hk, ih, hmem, Ne.symm hk]

theorem groupbyOpt_fst (rows : List (List (Option Val)))
    (key : List (Option Val) → Option Val) :
    (groupbyOpt rows key).map Prod.fst = dedupFirstSeen (rows.filterMap key) := by
  suffices h : ∀ (rs : List (List (Option Val))) (gs : List (Val × List (List (Option Val)))),
      (rs.foldl (fun gs r => match key r with | none => gs | some k => addToGroups gs k r) gs).map
          Prod.fst
        = (rs.filterMap key).foldl (fun acc k => if k ∈ acc then acc else acc ++ [k])
            (gs.map Prod.fst) by
    simpa [groupbyOpt, dedupFirstSeen] using h rows []
  intro rs
  induction rs with
  | nil => intro gs; rfl
  | cons r rest ih =>
    intro gs
    cases hk : key r with
    | none => simp [hk, List.filterMap_cons, ih]
    | some k => simp [hk, List.filterMap_cons, ih, addToGroups_fst]

/-! ## The grouped template fan-out (src/api/main.py lines 154-228) -/

/-- The inner-group key: the value of the first extracted column
(`first_col = df.columns[0]`). -/
def innerKeyOf (r : List (Option Val)) : Option Val := r.getD 0 none

/-- The outer-group key: the value of the last extracted column
(`group_col = df.columns[-1]`). -/
def outerKeyOf (df : DataFrame) (r : List (Option Val)) : Option Val :=
  r.getD (df.ncols - 1) none

/-- `str(k_value).replace('/', '_')`. -/
def safeName (s : String) : String :=
  ⟨s.data.map (fun c => if c = '/' then '_' else c)⟩

/-- One guarded cell write (one of the three `if vX is not None` blocks,
src/api/main.py lines 211-219).  `v : Option (Option Val)` mirrors the
two distinct absences of the program: the outer `none` is the Python
`None` produced by the `if len(row) > k else None` fallback, the only
value the `is not None` guard actually filters out; `some cellv` is a
cell value `row.iloc[k]`, where `cellv = none` is a missing spreadsheet
cell — pandas represents it as NaN, a float, and `nan is not None` is
True, so the guard passes, the NaN value is assigned to the cell
(openpyxl's own `if value is not None` also passes for NaN) and the
template style from row `data_start` is copied onto it. -/
def writeVal (ws_tpl : Worksheet) (data_start r_idx col : Nat)
    (v : Option (Option Val)) (ws : Worksheet) : Worksheet :=
  match v with
  | none => ws
  | some cellv =>
    setCell ws r_idx col
      (copy_style_no_fill (getCell ws_tpl data_start col)
        { getCell ws r_idx col with value := cellv })

/-- One data row (src/api/main.py lines 207-219): `v1`, `v2`, `v3` are
`row.iloc[k] if len(row) > k else None` for k = 1, 2, 3 — `row.get? k`
is `none` exactly when the position does not exist (the Python `None`
case) and `some cellv` otherwise, with `cellv = none` a NaN cell.  Each
position that exists is written to output columns 1, 2, 3 respectively,
NaN cells included. -/
def writeRow (ws_tpl : Worksheet) (data_start r_idx : Nat) (row : List (Option Val))
    (ws : Worksheet) : Worksheet :=
  writeVal ws_tpl data_start r_idx 3 (row.get? 3)
    (writeVal ws_tpl data_start r_idx 2 (row.get? 2)
      (writeVal ws_tpl data_start r_idx 1 (row.get? 1) ws))

/-- `for r_idx, (_, row) in enumerate(mini_df.iterrows(), start=data_start)`. -/
def writeRows (ws_tpl : Worksheet) (data_start : Nat) :
    Nat → List (List (Option Val)) → Worksheet → Worksheet
  | _, [], ws => ws
  | r_idx, row :: rest, ws =>
    writeRows ws_tpl data_start (r_idx + 1) rest (writeRow ws_tpl data_start r_idx row ws)

/-- One inner group (src/api/main.py lines 198-219): clone the template
sheet (`wb.copy_worksheet(ws_tpl)` copies title and cells), retitle the
clone to the truncated key name, then write the group's rows starting at
row `data_start`. -/
def writeMini (ws_tpl : Worksheet) (name : String) (data_start : Nat)
    (rows : List (List (Option Val))) : Worksheet :=
  writeRows ws_tpl data_start data_start rows { ws_tpl with title := name }

/-- The index of the template sheet: `wb['A'] if 'A' in wb.sheetnames
else wb[wb.sheetnames[0]]`. -/
def wsTplIdx (tws : List Worksheet) : Nat :=
  match tws.findIdx? (fun w => w.title == "A") with
  | some i => i
  | none => 0

def emptyWs : Worksheet := ⟨"", []⟩

/-- The template workbook's sheets paired with their openpyxl object
identities (their load positions). -/
def enumSheets (i : Nat) : List Worksheet → List (Nat × Worksheet)
  | [] => []
  | w :: ws => (i, w) :: enumSheets (i + 1) ws

def sheetTitles (sheets : List (Nat × Worksheet)) : List String :=
  sheets.map (fun p => p.2.title)

/-- The loop body for one inner group (src/api/main.py lines 197-219)
over the workbook state: current sheet list plus the next fresh sheet
identity.  A sheet already carrying the computed name is removed
(`wb.remove(wb[sheet_name_d])`), then the written clone is appended. -/
def innerStep (ws_tpl : Worksheet) (data_start : Nat)
    (st : List (Nat × Worksheet) × Nat) (kg : Val × List (List (Option Val))) :
    List (Nat × Worksheet) × Nat :=
  let name := sheet_name_d kg.1
  let sheets :=
    if (sheetTitles st.1).contains name then st.1.eraseP (fun p => p.2.title == name)
    else st.1
  (sheets ++ [(st.2, writeMini ws_tpl name data_start kg.2)], st.2 + 1)

/-- One outer group (src/api/main.py lines 190-225): reload the template
workbook from its bytes, pick the template sheet, process each inner
group in first-seen order, then remove the original template sheet by
object identity — `wb.remove(ws_tpl)` inside `try/except` is a no-op
when an earlier name collision already removed the original. -/
def processGroup (tws : List Worksheet) (sub : List (List (Option Val)))
    (data_start : Nat) : List (Nat × Worksheet) :=
  let tid := wsTplIdx tws
  let ws_tpl := tws.getD tid emptyWs
  let res := (groupbyOpt sub innerKeyOf).foldl (innerStep ws_tpl data_start)
      (enumSheets 0 tws, tws.length)
  if (sheetTitles res.1).contains ws_tpl.title then res.1.filter (fun p => p.1 != tid)
  else res.1

/-- The `/process` fan-out from the extracted data frame (src/api/main.py
lines 185-228): one archive entry per outer group, in group order, named
`str(k_value).replace('/', '_') + '.xlsx'`. -/
def process (df : DataFrame) (tws : List Worksheet) (data_start : Nat) :
    List (String × List (Nat × Worksheet)) :=
  (groupbyOpt df.rows (outerKeyOf df)).map
    (fun kg => (safeName (valToString kg.1) ++ ".xlsx", processGroup tws kg.2 data_start))

def wsA : Worksheet := ⟨"A", []⟩

def dfBABA : DataFrame :=
  { colNames := ["c0", "c1"],
    rows := [[some (.str "x"), some (.str "B")],
             [some (.str "y"), some (.str "A")],
             [some (.str "z"), some (.str "B")],
             [some (.str "w"), some (.str "A")]] }

/-- C3: outer groups (keyed by the last extracted column) and inner
groups (keyed by the first extracted column) are iterated in first-seen
order of distinct key values, never sorted; in particular input rows
with outer keys B, A, B, A produce output workbooks in order B, A. -/
theorem process_first_seen_order :
    (∀ (df : DataFrame) (tws : List Worksheet) (data_start : Nat),
      (process df tws data_start).map Prod.fst
        = (dedupFirstSeen (df.rows.filterMap (outerKeyOf df))).map
            (fun k => safeName (valToString k) ++ ".xlsx"))
    ∧ (∀ sub : List (List (Option Val)),
        (groupbyOpt sub innerKeyOf).map Prod.fst
          = dedupFirstSeen (sub.filterMap innerKeyOf))
    ∧ (process dfBABA [wsA] 4).map Prod.fst = ["B.xlsx", "A.xlsx"] := by
  refine ⟨fun df tws data_start => ?_, fun sub => groupbyOpt_fst sub innerKeyOf, by rfl⟩
  calc (process df tws data_start).map Prod.fst
      = ((groupbyOpt df.rows (outerKeyOf df)).map Prod.fst).map
          (fun k => safeName (valToString k) ++ ".xlsx") := by
        simp [process, List.map_map, Function.comp]
    _ = (dedupFirstSeen (df.rows.filterMap (outerKeyOf df))).map
          (fun k => safeName (valToString k) ++ ".xlsx") := by
        rw [groupbyOpt_fst]

/-! ## Cell-level behaviour of the fan-out writes (claims C1 and C2) -/

theorem getCell_setCell (ws : Worksheet) (r c r' c' : Nat) (cell : Cell) :
    getCell (setCell ws r c cell) r' c'
      = if r' = r ∧ c' = c then cell else getCell ws r' c' := by
  by_cases h : r' = r ∧ c' = c
  · obtain ⟨rfl, rfl⟩ := h
    simp [getCell, setCell, List.find?]
  · have hne : ((r, c) == (r', c')) = false := by
      apply beq_eq_false_iff_ne.2
      intro he
      rw [Prod.mk.injEq] at he
      exact h ⟨he.1.symm, he.2.symm⟩
    simp [getCell, setCell, List.find?, hne, h]

theorem writeVal_none (ws_tpl : Worksheet) (ds r col : Nat) (ws : Worksheet) :
    writeVal ws_tpl ds r col none ws = ws := rfl

theorem getCell_writeVal_other (ws_tpl : Worksheet) (ds r col : Nat)
    (v : Option (Option Val))
    (ws : Worksheet) (r' c' : Nat) (h : ¬ (r' = r ∧ c' = col)) :
    getCell (writeVal ws_tpl ds r col v ws) r' c' = getCell ws r' c' := by
  cases v with
  | none => rfl
  | some cellv => simp [writeVal, getCell_setCell, h]

theorem getCell_writeVal_some (ws_tpl : Worksheet) (ds r col : Nat) (cellv : Option Val)
    (ws : Worksheet) :
    getCell (writeVal ws_tpl ds r col (some cellv) ws) r col
      = copy_style_no_fill (getCell ws_tpl ds col)
          { getCell ws r col with value := cellv } := by
  simp [writeVal, getCell_setCell]

theorem getCell_writeRow_other_row (ws_tpl : Worksheet) (ds r : Nat)
    (row : List (Option Val)) (ws : Worksheet) (r' c' : Nat) (h : r' ≠ r) :
    getCell (writeRow ws_tpl ds r row ws) r' c' = getCell ws r' c' := by
  unfold writeRow
  rw [getCell_writeVal_other _ _ _ _ _ _ _ _ (by tauto),
    getCell_writeVal_other _ _ _ _ _ _ _ _ (by tauto),
    getCell_writeVal_other _ _ _ _ _ _ _ _ (by tauto)]

theorem getCell_writeRow_skip (ws_tpl : Worksheet) (ds r : Nat)
    (row : List (Option Val)) (ws : Worksheet) (col : Nat)
    (h : row.get? col = none) :
    getCell (writeRow ws_tpl ds r row ws) r col = getCell ws r col := by
  unfold writeRow
  by_cases h3 : col = 3
  · subst h3
    rw [h, writeVal_none,
      getCell_writeVal_other _ _ _ _ _ _ _ _ (by omega),
      getCell_writeVal_other _ _ _ _ _ _ _ _ (by omega)]
  · by_cases h2 : col = 2
    · subst h2
      rw [getCell_writeVal_other _ _ _ _ _ _ _ _ (by omega), h, writeVal_none,
        getCell_writeVal_other _ _ _ _ _ _ _ _ (by omega)]
    · by_cases h1 : col = 1
      · subst h1
        rw [getCell_writeVal_other _ _ _ _ _ _ _ _ (by omega),
          getCell_writeVal_other _ _ _ _ _ _ _ _ (by omega), h, writeVal_none]
      · rw [getCell_writeVal_other _ _ _ _ _ _ _ _ (by tauto),
          getCell_writeVal_other _ _ _ _ _ _ _ _ (by tauto),
          getCell_writeVal_other _ _ _ _ _ _ _ _ (by tauto)]

theorem getCell_writeRow_other_col (ws_tpl : Worksheet) (ds r : Nat)
    (row : List (Option Val)) (ws : Worksheet) (col : Nat)
    (h : ¬ (col = 1 ∨ col = 2 ∨ col = 3)) :
    getCell (writeRow ws_tpl ds r row ws) r col = getCell ws r col := by
  unfold writeRow
  rw [getCell_writeVal_other _ _ _ _ _ _ _ _ (by tauto),
    getCell_writeVal_other _ _ _ _ _ _ _ _ (by tauto),
    getCell_writeVal_other _ _ _ _ _ _ _ _ (by tauto)]

theorem getCell_writeRow_write (ws_tpl : Worksheet) (ds r : Nat)
    (row : List (Option Val)) (ws : Worksheet) (col : Nat) (cellv : Option Val)
    (hcol : col = 1 ∨ col = 2 ∨ col = 3) (h : row.get? col = some cellv) :
    getCell (writeRow ws_tpl ds r row ws) r col
      = copy_style_no_fill (getCell ws_tpl ds col)
          { getCell ws r col with value := cellv } := by
  unfold writeRow
  rcases hcol with rfl | rfl | rfl
  · rw [getCell_writeVal_other _ _ _ _ _ _ _ _ (by omega),
      getCell_writeVal_other _ _ _ _ _ _ _ _ (by omega), h, getCell_writeVal_some]
  · rw [getCell_writeVal_other _ _ _ _ _ _ _ _ (by omega), h, getCell_writeVal_some,
      getCell_writeVal_other _ _ _ _ _ _ _ _ (by omega)]
  · rw [h, getCell_writeVal_some,
      getCell_writeVal_other _ _ _ _ _ _ _ _ (by omega),
      getCell_writeVal_other _ _ _ _ _ _ _ _ (by omega)]

theorem getCell_writeRows_lt (ws_tpl : Worksheet) (ds : Nat)
    (rows : List (List (Option Val))) (start : Nat) (ws : Worksheet) (r' c' : Nat)
    (h : r' < start) :
    getCell (writeRows ws_tpl ds start rows ws) r' c' = getCell ws r' c' := by
  induction rows generalizing start ws with
  | nil => rfl
  | cons row rest ih =>
    rw [writeRows, ih (start + 1) _ (by omega),
      getCell_writeRow_other_row _ _ _ _ _ _ _ (by omega)]

theorem getCell_writeRows_skip (ws_tpl : Worksheet) (ds : Nat)
    (rows : List (List (Option Val))) (start : Nat) (ws : Worksheet) (j col : Nat)
    (hj : j < rows.length) (h : (rows.getD j []).get? col = none) :
    getCell (writeRows ws_tpl ds start rows ws) (start + j) col
      = getCell ws (start + j) col := by
  induction rows generalizing start ws j with
  | nil => simp at hj
  | cons row rest ih =>
    cases j with
    | zero =>
      rw [writeRows, getCell_writeRows_lt _ _ _ _ _ _ _ (by omega)]
      simpa using getCell_writeRow_skip ws_tpl ds start row ws col (by simpa using h)
    | succ q =>
      have harith : start + (q + 1) = (start + 1) + q := by omega
      rw [writeRows, harith,
        ih (start + 1) (writeRow ws_tpl ds start row ws) q
          (by simpa using Nat.lt_of_succ_lt_succ hj) (by simpa using h),
        getCell_writeRow_other_row _ _ _ _ _ _ _ (by omega)]

theorem getCell_writeRows_other_col (ws_tpl : Worksheet) (ds : Nat)
    (rows : List (List (Option Val))) (start : Nat) (ws : Worksheet) (j col : Nat)
    (hj : j < rows.length) (hcol : ¬ (col = 1 ∨ col = 2 ∨ col = 3)) :
    getCell (writeRows ws_tpl ds start rows ws) (start + j) col
      = getCell ws (start + j) col := by
  induction rows generalizing start ws j with
  | nil => simp at hj
  | cons row rest ih =>
    cases j with
    | zero =>
      rw [writeRows, getCell_writeRows_lt _ _ _ _ _ _ _ (by omega)]
      simpa using getCell_writeRow_other_col ws_tpl ds start row ws col hcol
    | succ q =>
      have harith : start + (q + 1) = (start + 1) + q := by omega
      rw [writeRows, harith,
        ih (start + 1) (writeRow ws_tpl ds start row ws) q
          (by simpa using Nat.lt_of_succ_lt_succ hj),
        getCell_writeRow_other_row _ _ _ _ _ _ _ (by omega)]

theorem getCell_writeRows_write (ws_tpl : Worksheet) (ds : Nat)
    (rows : List (List (Option Val))) (start : Nat) (ws : Worksheet) (j col : Nat)
    (cellv : Option Val)
    (hj : j < rows.length) (hcol : col = 1 ∨ col = 2 ∨ col = 3)
    (h : (rows.getD j []).get? col = some cellv) :
    getCell (writeRows ws_tpl ds start rows ws) (start + j) col
      = copy_style_no_fill (getCell ws_tpl ds col)
          { getCell ws (start + j) col with value := cellv } := by
  induction rows generalizing start ws j with
  | nil => simp at hj
  | cons row rest ih =>
    cases j with
    | zero =>
      rw [writeRows, getCell_writeRows_lt _ _ _ _ _ _ _ (by omega)]
      simpa using getCell_writeRow_write ws_tpl ds start row ws col cellv hcol
        (by simpa using h)
    | succ q =>
      have harith : start + (q + 1) = (start + 1) + q := by omega
      rw [writeRows, harith,
        ih (start + 1) (writeRow ws_tpl ds start row ws) q
          (by simpa using Nat.lt_of_succ_lt_succ hj) (by simpa using h),
        getCell_writeRow_other_row _ _ _ _ _ _ _ (by omega)]

theorem getCell_retitle (ws : Worksheet) (name : String) (r c : Nat) :
    getCell { ws with title := name } r c = getCell ws r c := rfl

theorem getD_eq_get? {α : Type} (l : List α) (n : Nat) (d : α) :
    l.getD n d = (l.get? n).getD d := by
  induction l generalizing n with
  | nil => cases n <;> rfl
  | cons a t ih =>
    cases n with
    | zero => rfl
    | succ m =>
      rw [List.getD_cons_succ]
      exact ih m

/-- C1 exhibits a code bug: the spec says an absent (`None`/missing)
data value causes the output cell to be skipped entirely, but pandas
represents a missing spreadsheet cell as NaN and `nan is not None` is
True, so the guard at src/api/main.py lines 211-219 passes: the code
assigns the NaN value to the output cell and copies the template row's
style onto it.  Only the Python `None` of the `len(row) > k` fallback
(a position beyond the extracted row) is skipped.  This theorem
evaluates the code at the failing inputs: for a row whose cell at data
position `col` is missing (modelled `some none`, a NaN), the output
cell is overwritten — its five style attributes become the template
row's — instead of being left as the clone inherited it. -/
theorem missing_value_written_nan (ws_tpl : Worksheet) (name : String) (ds : Nat)
    (rows : List (List (Option Val))) (j col : Nat)
    (hj : j < rows.length) (hcol : col = 1 ∨ col = 2 ∨ col = 3)
    (hnan : (rows.getD j []).get? col = some none) :
    getCell (writeMini ws_tpl name ds rows) (ds + j) col
      = copy_style_no_fill (getCell ws_tpl ds col)
          { getCell ws_tpl (ds + j) col with value := none } := by
  unfold writeMini
  rw [getCell_writeRows_write ws_tpl ds rows ds _ j col none hj hcol hnan]
  simp only [getCell_retitle]

def tplW : Worksheet :=
  ⟨"A", [((4, 1), ⟨none, ⟨"f1", "b1", "a1", "n1", "p1", "fill1"⟩⟩),
         ((4, 2), ⟨none, ⟨"f2", "b2", "a2", "n2", "p2", "fill2"⟩⟩)]⟩

def rowsW : List (List (Option Val)) := [[some (.str "k"), none, some (.str "c")]]

def rowsNaN : List (List (Option Val)) :=
  [[some (.str "k0"), some (.str "b0"), some (.str "c0")],
   [some (.str "k"), none, some (.str "c")]]

theorem missing_value_written_nan_witness :
    (1 < rowsNaN.length ∧ (rowsNaN.getD 1 []).get? 1 = some none)
    ∧ getCell (writeMini tplW "S" 4 rowsNaN) (4 + 1) 1
        = copy_style_no_fill (getCell tplW 4 1)
            { getCell tplW (4 + 1) 1 with value := none }
    ∧ (getCell (writeMini tplW "S" 4 rowsNaN) (4 + 1) 1).style.font = "f1"
    ∧ (getCell tplW (4 + 1) 1).style.font = "" :=
  ⟨⟨by decide, by decide⟩,
   missing_value_written_nan tplW "S" 4 rowsNaN 1 1 (by decide) (by omega) (by decide),
   by decide, by decide⟩

def tplPlain : Worksheet := ⟨"A", []⟩

def rowSix : List (Option Val) :=
  [some (.str "k"), some (.str "b"), some (.str "c"), some (.str "d"),
   some (.str "e"), some (.str "out")]

/-- C2 counterexample: for a table with six extracted columns, the data
columns (all but the first and last) are positions 1, 2, 3, 4, so the
claim requires the value at position 4 (`"e"`) to be written to output
column 4 of the first data row.  The code only ever writes output
columns 1-3, so that output cell carries no value at all. -/
theorem data_columns_capped_counterexample :
    rowSix.length = 6
    ∧ rowSix.getD 4 none = some (.str "e")
    ∧ ¬ ((getCell (writeMini tplPlain "S" 4 [rowSix]) (4 + 0) 4).value
          = some (.str "e"))
    ∧ (getCell (writeMini tplPlain "S" 4 [rowSix]) (4 + 0) 4).value = none := by
  exact ⟨by decide, by decide, by decide, by decide⟩

/-- C2 as amended: for every extracted table and inner group, the
fan-out writes, for each row landing at output row `data_start + j`,
exactly the extracted columns at positions 1, 2 and 3 (when present and
non-absent) into output columns 1, 2, 3, copying the style of the
template sheet's row `data_start` at the matching column onto every
written cell; output columns other than 1, 2, 3 are never written.  This
coincides with "all data columns excluding the two key columns" exactly
when five columns are extracted. -/
theorem data_columns_written (ws_tpl : Worksheet) (name : String) (ds : Nat)
    (rows : List (List (Option Val))) (j : Nat) (hj : j < rows.length) :
    (∀ col x, (col = 1 ∨ col = 2 ∨ col = 3) →
      (rows.getD j []).getD col none = some x →
      getCell (writeMini ws_tpl name ds rows) (ds + j) col
        = copy_style_no_fill (getCell ws_tpl ds col)
            { getCell ws_tpl (ds + j) col with value := some x })
    ∧ (∀ col, ¬ (col = 1 ∨ col = 2 ∨ col = 3) →
      getCell (writeMini ws_tpl name ds rows) (ds + j) col
        = getCell ws_tpl (ds + j) col) := by
  constructor
  · intro col x hcol hv
    have hv2 : ((rows.getD j []).get? col).getD none = some x := by
      rw [← getD_eq_get?]
      exact hv
    have hg : (rows.getD j []).get? col = some (some x) := by
      cases hq : (rows.getD j []).get? col with
      | none =>
        rw [hq] at hv2
        exact absurd hv2 (by simp)
      | some c =>
        rw [hq] at hv2
        simp only [Option.getD_some] at hv2
        rw [hv2]
    unfold writeMini
    rw [getCell_writeRows_write ws_tpl ds rows ds _ j col (some x) hj hcol hg]
    simp only [getCell_retitle]
  · intro col hcol
    unfold writeMini
    rw [getCell_writeRows_other_col ws_tpl ds rows ds _ j col hj hcol, getCell_retitle]

theorem data_columns_written_witness :
    (0 < rowsW.length ∧ (rowsW.getD 0 []).getD 2 none = some (.str "c"))
    ∧ getCell (writeMini tplW "S" 4 rowsW) (4 + 0) 2
        = copy_style_no_fill (getCell tplW 4 2)
            { getCell tplW (4 + 0) 2 with value := some (.str "c") }
    ∧ getCell (writeMini tplW "S" 4 rowsW) (4 + 0) 5 = getCell tplW (4 + 0) 5 :=
  ⟨⟨by decide, by decide⟩,
   (data_columns_written tplW "S" 4 rowsW 0 (by decide)).1 2 (.str "c")
     (by omega) (by decide),
   (data_columns_written tplW "S" 4 rowsW 0 (by decide)).2 5 (by omega)⟩

/-! ## Sheet inventory of an output workbook (claim C7) -/

/-- Keep the last occurrence of every name, in last-occurrence order:
the titles of the generated clones after collisions are resolved. -/
def dedupKeepLast : List String → List String
  | [] => []
  | n :: ns => if n ∈ ns then dedupKeepLast ns else n :: dedupKeepLast ns

theorem dedupKeepLast_mem (a : String) (l : List String) :
    a ∈ dedupKeepLast l ↔ a ∈ l := by
  induction l with
  | nil => exact Iff.rfl
  | cons n ns ih =>
    by_cases h : n ∈ ns
    · rw [dedupKeepLast, if_pos h, ih, List.mem_cons]
      exact ⟨Or.inr, fun hx => hx.elim (fun he => he ▸ h) id⟩
    · rw [dedupKeepLast, if_neg h, List.mem_cons, List.mem_cons, ih]

theorem title_writeVal (ws_tpl : Worksheet) (ds r col : Nat) (v : Option (Option Val))
    (ws : Worksheet) : (writeVal ws_tpl ds r col v ws).title = ws.title := by
  cases v <;> rfl

theorem title_writeRow (ws_tpl : Worksheet) (ds r : Nat) (row : List (Option Val))
    (ws : Worksheet) : (writeRow ws_tpl ds r row ws).title = ws.title := by
  simp [writeRow, title_writeVal]

theorem title_writeRows (ws_tpl : Worksheet) (ds : Nat)
    (rows : List (List (Option Val))) (start : Nat) (ws : Worksheet) :
    (writeRows ws_tpl ds start rows ws).title = ws.title := by
  induction rows generalizing start ws with
  | nil => rfl
  | cons row rest ih => rw [writeRows, ih, title_writeRow]

theorem title_writeMini (ws_tpl : Worksheet) (name : String) (ds : Nat)
    (rows : List (List (Option Val))) :
    (writeMini ws_tpl name ds rows).title = name := by
  unfold writeMini
  rw [title_writeRows]

theorem sheetTitles_append (l1 l2 : List (Nat × Worksheet)) :
    sheetTitles (l1 ++ l2) = sheetTitles l1 ++ sheetTitles l2 := by
  simp [sheetTitles]

theorem sheetTitles_filter (l : List (Nat × Worksheet)) (q : String → Bool) :
    sheetTitles (l.filter (fun p => q p.2.title)) = (sheetTitles l).filter q := by
  induction l with
  | nil => rfl
  | cons p rest ih =>
    by_cases h : q p.2.title
    · simp [sheetTitles, List.filter_cons, h] at *
      exact ih
    · simp [sheetTitles, List.filter_cons, h] at *
      exact ih

theorem sheetTitles_enumSheets (i : Nat) (tws : List Worksheet) :
    sheetTitles (enumSheets i tws) = tws.map Worksheet.title := by
  induction tws generalizing i with
  | nil => rfl
  | cons w ws ih => simp [enumSheets, sheetTitles] at *; exact ih (i + 1)

theorem enumSheets_id_bound (i : Nat) (tws : List Worksheet) :
    ∀ p ∈ enumSheets i tws, i ≤ p.1 ∧ p.1 < i + tws.length := by
  induction tws generalizing i with
  | nil => simp [enumSheets]
  | cons w ws ih =>
    intro p hp
    rcases (by simpa [enumSheets] using hp :
        p = (i, w) ∨ p ∈ enumSheets (i + 1) ws) with rfl | hp
    · simp
    · have := ih (i + 1) p hp
      simp only [List.length_cons]
      omega

theorem enumSheets_id_elem (i : Nat) (tws : List Worksheet) :
    ∀ p ∈ enumSheets i tws, p.2 = tws.getD (p.1 - i) emptyWs := by
  induction tws generalizing i with
  | nil => simp [enumSheets]
  | cons w ws ih =>
    intro p hp
    rcases (by simpa [enumSheets] using hp :
        p = (i, w) ∨ p ∈ enumSheets (i + 1) ws) with rfl | hp
    · simp
    · have h2 := ih (i + 1) p hp
      have hb := (enumSheets_id_bound (i + 1) ws p hp).1
      have harith : p.1 - i = (p.1 - (i + 1)) + 1 := by omega
      rw [harith, List.getD_cons_succ]
      exact h2

theorem enumSheets_mem_of_lt (i : Nat) (tws : List Worksheet) (k : Nat)
    (hk : k < tws.length) :
    (i + k, tws.getD k emptyWs) ∈ enumSheets i tws := by
  induction tws generalizing i k with
  | nil => simp at hk
  | cons w ws ih =>
    cases k with
    | zero => simp [enumSheets]
    | succ q =>
      have hmem := ih (i + 1) q (by simpa using Nat.lt_of_succ_lt_succ hk)
      have harith : i + (q + 1) = (i + 1) + q := by omega
      rw [harith, List.getD_cons_succ]
      exact List.mem_cons_of_mem _ hmem

theorem findIdx?_lt_length {α : Type} (p : α → Bool) (l : List α) (i : Nat)
    (h : l.findIdx? p = some i) : i < l.length := by
  induction l generalizing i with
  | nil => simp [List.findIdx?] at h
  | cons a as ih =>
    rw [List.findIdx?_cons] at h
    by_cases hp : p a
    · simp [hp] at h
      simp only [List.length_cons]
      omega
    · simp [hp] at h
      obtain ⟨j, hj, rfl⟩ := h
      have := ih j hj
      simp only [List.length_cons]
      omega

theorem wsTplIdx_lt (tws : List Worksheet) (h : tws ≠ []) :
    wsTplIdx tws < tws.length := by
  unfold wsTplIdx
  cases hf : tws.findIdx? (fun w => w.title == "A") with
  | none =>
    cases tws with
    | nil => exact absurd rfl h
    | cons w ws => simp
  | some i => exact findIdx?_lt_length _ tws i hf

theorem filter_ne_title_eq_self (rest : List (Nat × Worksheet)) (n : String)
    (h : n ∉ sheetTitles rest) :
    rest.filter (fun q => q.2.title != n) = rest := by
  rw [List.filter_eq_self]
  intro q hq
  rw [bne_iff_ne]
  intro he
  apply h
  rw [← he]
  exact List.mem_map_of_mem _ hq

/-- Under unique sheet titles, the guarded removal
`if name in wb.sheetnames: wb.remove(wb[name])` is exactly the filter
that drops the sheet carrying that title. -/
theorem eraseTitled_eq_filter (S : List (Nat × Worksheet)) (n : String)
    (hnd : (sheetTitles S).Nodup) :
    (if (sheetTitles S).contains n then S.eraseP (fun p => p.2.title == n) else S)
      = S.filter (fun p => p.2.title != n) := by
  induction S with
  | nil => simp
  | cons p rest ih =>
    have hcons : sheetTitles (p :: rest) = p.2.title :: sheetTitles rest := rfl
    rw [hcons] at hnd
    have hnd2 : (sheetTitles rest).Nodup := (List.nodup_cons.1 hnd).2
    have hrec := ih hnd2
    by_cases hp : p.2.title = n
    · have hnot : n ∉ sheetTitles rest := hp ▸ (List.nodup_cons.1 hnd).1
      have hcont : (sheetTitles (p :: rest)).contains n = true := by
        simp [hcons, hp]
      rw [if_pos hcont]
      have herase : (p :: rest).eraseP (fun q => q.2.title == n) = rest := by
        simp [List.eraseP_cons, hp]
      rw [herase, List.filter_cons]
      have hbne : (p.2.title != n) = false := by simp [hp]
      rw [hbne]
      simp [filter_ne_title_eq_self rest n hnot]
    · have hbne : (p.2.title != n) = true := by simp [hp]
      by_cases hc : n ∈ sheetTitles rest
      · have hcontTrue : (sheetTitles (p :: rest)).contains n = true := by
          simp [hcons, hc]
        have hcontRest : (sheetTitles rest).contains n = true := by simp [hc]
        rw [if_pos hcontTrue]
        rw [if_pos hcontRest] at hrec
        have hpa : (p.2.title == n) = false := by simp [hp]
        rw [List.eraseP_cons, hpa, cond_false, hrec, List.filter_cons, hbne]
        simp
      · have hcontFalse : ¬ (sheetTitles (p :: rest)).contains n = true := by
          simp [hcons, hc]
          exact fun h => hp h.symm
        rw [if_neg hcontFalse, List.filter_cons, hbne]
        simp [filter_ne_title_eq_self rest n hc]

theorem innerStep_eq (ws_tpl : Worksheet) (ds : Nat) (S : List (Nat × Worksheet))
    (nid : Nat) (kg : Val × List (List (Option Val)))
    (hnd : (sheetTitles S).Nodup) :
    innerStep ws_tpl ds (S, nid) kg
      = (S.filter (fun p => p.2.title != sheet_name_d kg.1)
          ++ [(nid, writeMini ws_tpl (sheet_name_d kg.1) ds kg.2)], nid + 1) := by
  simp only [innerStep]
  rw [eraseTitled_eq_filter S (sheet_name_d kg.1) hnd]

theorem not_mem_titles_filter (S : List (Nat × Worksheet)) (n : String) :
    n ∉ sheetTitles (S.filter (fun p => p.2.title != n)) := by
  intro h
  have h2 : n ∈ (S.filter (fun p => p.2.title != n)).map (fun p => p.2.title) := h
  obtain ⟨p, hp, hpn⟩ := List.mem_map.1 h2
  have hf := List.of_mem_filter hp
  rw [hpn] at hf
  simp at hf

/-- Characterization of the inner-group loop over an arbitrary workbook
state: surviving pre-existing sheets are those whose title is hit by no
generated name, followed by exactly one freshly-identified clone per
distinct generated name (last-generation order). -/
theorem innerFold_char (ws_tpl : Worksheet) (ds : Nat)
    (gs : List (Val × List (List (Option Val)))) :
    ∀ (S : List (Nat × Worksheet)) (nid : Nat),
      (∀ p ∈ S, p.1 < nid) → (sheetTitles S).Nodup →
      ∃ cl : List (Nat × Worksheet),
        (gs.foldl (innerStep ws_tpl ds) (S, nid)).1
            = S.filter
                (fun p => !((gs.map (fun kg => sheet_name_d kg.1)).contains p.2.title))
              ++ cl
          ∧ cl.map (fun p => p.2.title)
              = dedupKeepLast (gs.map (fun kg => sheet_name_d kg.1))
          ∧ ∀ p ∈ cl, nid ≤ p.1 := by
  induction gs with
  | nil =>
    intro S nid _ _
    exact ⟨[], by simp, rfl, by simp⟩
  | cons g rest ih =>
    intro S nid hid hnd
    rw [List.foldl_cons, innerStep_eq ws_tpl ds S nid g hnd, List.map_cons]
    set n := sheet_name_d g.1 with hn
    set NS := rest.map (fun kg => sheet_name_d kg.1) with hNS
    set mini := writeMini ws_tpl n ds g.2 with hmini
    have htitle : mini.title = n := title_writeMini ws_tpl n ds g.2
    have hid1 : ∀ p ∈ S.filter (fun p => p.2.title != n) ++ [(nid, mini)],
        p.1 < nid + 1 := by
      intro p hp
      rcases List.mem_append.1 hp with hp | hp
      · exact Nat.lt_succ_of_lt (hid p (List.mem_of_mem_filter hp))
      · have hpe : p = (nid, mini) := by simpa using hp
        rw [hpe]
        omega
    have hnd1 : (sheetTitles
        (S.filter (fun p => p.2.title != n) ++ [(nid, mini)])).Nodup := by
      rw [sheetTitles_append]
      apply List.Nodup.append
      · have hmapnd : (S.map (fun p => p.2.title)).Nodup := hnd
        exact ((List.filter_sublist S).map (fun p => p.2.title)).nodup hmapnd
      · simp [sheetTitles]
      · intro a ha hb
        have hba : a = n := by simpa [sheetTitles, htitle] using hb
        rw [hba] at ha
        exact not_mem_titles_filter S n ha
    obtain ⟨cl', heq', htit', hids'⟩ := ih _ (nid + 1) hid1 hnd1
    refine ⟨(if NS.contains n then [] else [(nid, mini)]) ++ cl', ?_, ?_, ?_⟩
    · rw [heq', List.filter_append, List.filter_filter]
      have hcongr : S.filter (fun a => (!NS.contains a.2.title) && (a.2.title != n))
          = S.filter (fun p => !((n :: NS).contains p.2.title)) := by
        apply List.filter_congr
        intro p _
        rw [List.contains_cons]
        cases hrc : NS.contains p.2.title <;>
          cases ht : (p.2.title == n) <;> simp [bne, ht]
      have hsingle : [(nid, mini)].filter (fun p => !NS.contains p.2.title)
          = (if NS.contains n then [] else [(nid, mini)]) := by
        simp only [List.filter_cons, List.filter_nil, htitle]
        cases hc : NS.contains n <;> simp
      rw [hcongr, hsingle, List.append_assoc]
    · rw [List.map_append, htit']
      simp only [dedupKeepLast]
      by_cases hc : n ∈ NS
      · have hcb : NS.contains n = true := by simpa using hc
        rw [if_pos hc, hcb]
        simp
      · have hcb : NS.contains n = false := by simpa using hc
        rw [if_neg hc, hcb]
        simp [htitle]
    · intro p hp
      rcases List.mem_append.1 hp with hp | hp
      · by_cases hc : NS.contains n = true
        · rw [if_pos hc] at hp
          simp at hp
        · rw [if_neg hc] at hp
          have hpe : p = (nid, mini) := by simpa using hp
          rw [hpe]
      · exact Nat.le_of_succ_le (hids' p hp)

/-- The truncated sheet names generated for the inner groups of one
outer group, in first-seen inner-key order. -/
def innerNames (sub : List (List (Option Val))) : List String :=
  (groupbyOpt sub innerKeyOf).map (fun kg => sheet_name_d kg.1)

theorem map_title_filter (l : List (Nat × Worksheet)) (q : String → Bool) :
    (l.filter (fun p => q p.2.title)).map (fun p => p.2.title)
      = (l.map (fun p => p.2.title)).filter q := sheetTitles_filter l q

theorem map_title_enumSheets (i : Nat) (tws : List Worksheet) :
    (enumSheets i tws).map (fun p => p.2.title) = tws.map Worksheet.title :=
  sheetTitles_enumSheets i tws

theorem contains_of_mem {l : List String} {a : String} (h : a ∈ l) :
    l.contains a = true := by simpa using h

theorem contains_false_of_not_mem {l : List String} {a : String} (h : a ∉ l) :
    l.contains a = false := by simpa using h

/-- C7 as amended: for every outer group the original template sheet is
absent from the finished workbook (it is removed at the end, or earlier
by a name collision), and the workbook's sheets are exactly the template
workbook's other sheets whose titles are hit by no generated name,
followed by one generated sheet per distinct truncated inner-key name —
not per distinct inner key, because distinct keys sharing a 31-character
truncation share one sheet. -/
theorem template_sheet_removed (tws : List Worksheet) (sub : List (List (Option Val)))
    (ds : Nat) (htws : tws ≠ []) (hnd : (tws.map Worksheet.title).Nodup) :
    (∀ p ∈ processGroup tws sub ds, p.1 ≠ wsTplIdx tws)
    ∧ (processGroup tws sub ds).map (fun p => p.2.title)
        = (tws.map Worksheet.title).filter
            (fun t => (!(innerNames sub).contains t)
              && (t != (tws.getD (wsTplIdx tws) emptyWs).title))
          ++ dedupKeepLast (innerNames sub) := by
  have htid : wsTplIdx tws < tws.length := wsTplIdx_lt tws htws
  have hid0 : ∀ p ∈ enumSheets 0 tws, p.1 < tws.length := by
    intro p hp
    have := enumSheets_id_bound 0 tws p hp
    omega
  have hnd0 : (sheetTitles (enumSheets 0 tws)).Nodup := by
    rw [sheetTitles_enumSheets]
    exact hnd
  obtain ⟨cl, heq, htit, hids⟩ :=
    innerFold_char (tws.getD (wsTplIdx tws) emptyWs) ds (groupbyOpt sub innerKeyOf)
      (enumSheets 0 tws) tws.length hid0 hnd0
  have htitcl : cl.map (fun p => p.2.title) = dedupKeepLast (innerNames sub) := htit
  have hpg : processGroup tws sub ds
      = (if (sheetTitles ((enumSheets 0 tws).filter
            (fun p => !((innerNames sub).contains p.2.title)) ++ cl)).contains
              (tws.getD (wsTplIdx tws) emptyWs).title = true
         then ((enumSheets 0 tws).filter
            (fun p => !((innerNames sub).contains p.2.title)) ++ cl).filter
              (fun p => p.1 != wsTplIdx tws)
         else (enumSheets 0 tws).filter
            (fun p => !((innerNames sub).contains p.2.title)) ++ cl) := by
    simp only [processGroup]
    rw [heq]
    rfl
  have hclkeep : cl.filter (fun p => p.1 != wsTplIdx tws) = cl := by
    rw [List.filter_eq_self]
    intro p hp
    have := hids p hp
    simp only [bne_iff_ne, ne_eq]
    omega
  have htidmem : (wsTplIdx tws, tws.getD (wsTplIdx tws) emptyWs) ∈ enumSheets 0 tws := by
    have := enumSheets_mem_of_lt 0 tws (wsTplIdx tws) htid
    simpa using this
  have hiff : ∀ p ∈ enumSheets 0 tws,
      (p.1 = wsTplIdx tws ↔ p.2.title = (tws.getD (wsTplIdx tws) emptyWs).title) := by
    intro p hp
    constructor
    · intro h1
      have helem := enumSheets_id_elem 0 tws p hp
      rw [Nat.sub_zero, h1] at helem
      rw [helem]
    · intro h2
      have hndmap : ((enumSheets 0 tws).map (fun p => p.2.title)).Nodup := hnd0
      have := List.inj_on_of_nodup_map hndmap hp htidmem h2
      rw [this]
  by_cases hc : (tws.getD (wsTplIdx tws) emptyWs).title ∈ innerNames sub
  · -- a generated name collides with the template title: the original
    -- template sheet was removed during the loop, the final removal is
    -- the no-op `except: pass` branch.
    have hccont : (innerNames sub).contains (tws.getD (wsTplIdx tws) emptyWs).title = true :=
      contains_of_mem hc
    have hsurvid : ∀ p ∈ (enumSheets 0 tws).filter
        (fun p => !((innerNames sub).contains p.2.title)), p.1 ≠ wsTplIdx tws := by
      intro p hp h1
      have hpe := List.mem_of_mem_filter hp
      have hpt : p.2.title = (tws.getD (wsTplIdx tws) emptyWs).title := (hiff p hpe).1 h1
      have hfp := List.of_mem_filter hp
      rw [hpt, hccont] at hfp
      simp at hfp
    have hguard : (sheetTitles ((enumSheets 0 tws).filter
          (fun p => !((innerNames sub).contains p.2.title)) ++ cl)).contains
            (tws.getD (wsTplIdx tws) emptyWs).title = true := by
      apply contains_of_mem
      rw [sheetTitles_append]
      apply List.mem_append_right
      have : (tws.getD (wsTplIdx tws) emptyWs).title ∈ cl.map (fun p => p.2.title) := by
        rw [htitcl]
        exact (dedupKeepLast_mem _ _).2 hc
      exact this
    have hsurvkeep : ((enumSheets 0 tws).filter
          (fun p => !((innerNames sub).contains p.2.title))).filter
            (fun p => p.1 != wsTplIdx tws)
        = (enumSheets 0 tws).filter
            (fun p => !((innerNames sub).contains p.2.title)) := by
      rw [List.filter_eq_self]
      intro p hp
      simp only [bne_iff_ne, ne_eq]
      exact hsurvid p hp
    rw [hpg, if_pos hguard, List.filter_append, hclkeep, hsurvkeep]
    constructor
    · intro p hp
      rcases List.mem_append.1 hp with hp | hp
      · exact hsurvid p hp
      · have := hids p hp
        omega
    · rw [List.map_append, htitcl,
        map_title_filter (enumSheets 0 tws) (fun t => !(innerNames sub).contains t),
        map_title_enumSheets]
      have : (tws.map Worksheet.title).filter (fun t => !(innerNames sub).contains t)
          = (tws.map Worksheet.title).filter
              (fun t => (!(innerNames sub).contains t)
                && (t != (tws.getD (wsTplIdx tws) emptyWs).title)) := by
        apply List.filter_congr
        intro t _
        by_cases hte : t = (tws.getD (wsTplIdx tws) emptyWs).title
        · rw [hte, hccont]
          simp
        · have hb : (t != (tws.getD (wsTplIdx tws) emptyWs).title) = true :=
            bne_iff_ne.2 hte
          rw [hb, Bool.and_true]
      rw [this]
  · -- no generated name equals the template title: the original
    -- survives the loop and the final `wb.remove(ws_tpl)` removes it.
    have hccont : (innerNames sub).contains (tws.getD (wsTplIdx tws) emptyWs).title = false :=
      contains_false_of_not_mem hc
    have htidsurv : (wsTplIdx tws, tws.getD (wsTplIdx tws) emptyWs) ∈
        (enumSheets 0 tws).filter (fun p => !((innerNames sub).contains p.2.title)) := by
      apply List.mem_filter.2
      refine ⟨htidmem, ?_⟩
      show (!(innerNames sub).contains (tws.getD (wsTplIdx tws) emptyWs).title) = true
      rw [hccont]
      rfl
    have hguard : (sheetTitles ((enumSheets 0 tws).filter
          (fun p => !((innerNames sub).contains p.2.title)) ++ cl)).contains
            (tws.getD (wsTplIdx tws) emptyWs).title = true := by
      apply contains_of_mem
      rw [sheetTitles_append]
      apply List.mem_append_left
      exact List.mem_map_of_mem (fun p => p.2.title) htidsurv
    have hsurvfilter : ((enumSheets 0 tws).filter
          (fun p => !((innerNames sub).contains p.2.title))).filter
            (fun p => p.1 != wsTplIdx tws)
        = (enumSheets 0 tws).filter
            (fun p => (!(innerNames sub).contains p.2.title)
              && (p.2.title != (tws.getD (wsTplIdx tws) emptyWs).title)) := by
      rw [List.filter_filter]
      apply List.filter_congr
      intro p hp
      by_cases hpt : p.2.title = (tws.getD (wsTplIdx tws) emptyWs).title
      · have h1 : p.1 = wsTplIdx tws := (hiff p hp).2 hpt
        have hb1 : (p.1 != wsTplIdx tws) = false := bne_eq_false_iff_eq.2 h1
        have hb2 : (p.2.title != (tws.getD (wsTplIdx tws) emptyWs).title) = false :=
          bne_eq_false_iff_eq.2 hpt
        rw [hb1, hb2]
        simp
      · have h1 : p.1 ≠ wsTplIdx tws := fun hh => hpt ((hiff p hp).1 hh)
        have hb1 : (p.1 != wsTplIdx tws) = true := bne_iff_ne.2 h1
        have hb2 : (p.2.title != (tws.getD (wsTplIdx tws) emptyWs).title) = true :=
          bne_iff_ne.2 hpt
        rw [hb1, hb2, Bool.true_and, Bool.and_true]
    rw [hpg, if_pos hguard, List.filter_append, hclkeep, hsurvfilter]
    constructor
    · intro p hp
      rcases List.mem_append.1 hp with hp | hp
      · have hfp := List.of_mem_filter hp
        intro h1
        have hpt : p.2.title = (tws.getD (wsTplIdx tws) emptyWs).title :=
          (hiff p (List.mem_of_mem_filter hp)).1 h1
        rw [hpt] at hfp
        simp [hccont] at hfp
      · have := hids p hp
        omega
    · rw [List.map_append, htitcl,
        map_title_filter (enumSheets 0 tws)
          (fun t => (!(innerNames sub).contains t)
            && (t != (tws.getD (wsTplIdx tws) emptyWs).title)),
        map_title_enumSheets]

def tr31 : String := "aaaaaaaaaaaaaaaaaaaaaaaaaaaaaaa"

def subCollide : List (List (Option Val)) :=
  [[some (.str (tr31 ++ "b")), some (.str "v1")],
   [some (.str (tr31 ++ "c")), some (.str "v2")]]

/-- C7 counterexample: two distinct 32-character inner keys share their
31-character truncation, so the second clone displaces the first and the
output workbook holds one sheet while the outer group has two distinct
inner keys — refuting "exactly one sheet per distinct inner key". -/
theorem sheets_per_key_counterexample :
    (dedupFirstSeen (subCollide.filterMap innerKeyOf)).length = 2
    ∧ (processGroup [⟨"A", []⟩] subCollide 4).length = 1 :=
  ⟨by decide, by decide⟩

def twsW : List Worksheet := [⟨"A", []⟩, ⟨"Keep", []⟩]

def subW : List (List (Option Val)) := [[some (.str "S1"), some (.str "x")]]

theorem template_sheet_removed_witness :
    (twsW ≠ [] ∧ (twsW.map Worksheet.title).Nodup)
    ∧ (∀ p ∈ processGroup twsW subW 4, p.1 ≠ wsTplIdx twsW)
    ∧ (processGroup twsW subW 4).map (fun p => p.2.title)
        = (twsW.map Worksheet.title).filter
            (fun t => (!(innerNames subW).contains t)
              && (t != (twsW.getD (wsTplIdx twsW) emptyWs).title))
          ++ dedupKeepLast (innerNames subW)
    ∧ (processGroup twsW subW 4).map (fun p => p.2.title) = ["Keep", "S1"] :=
  ⟨⟨by decide, by decide⟩,
   (template_sheet_removed twsW subW 4 (by decide) (by decide)).1,
   (template_sheet_removed twsW subW 4 (by decide) (by decide)).2,
   by decide⟩

/-! ## The merge path (src/api/main.py lines 56-103) -/

/-- Python `str.split(c)` on a character list, keeping empty pieces. -/
def splitOnChar (c : Char) : List Char → List (List Char)
  | [] => [[]]
  | d :: ds =>
    let r := splitOnChar c ds
    if d = c then [] :: r
    else (d :: r.headD []) :: r.tail

/-- `str(s).startswith("HS")`. -/
def startsWithHS (s : String) : Bool :=
  match s.data with
  | c1 :: c2 :: _ => c1 = 'H' && c2 = 'S'
  | _ => false

def endsWithXlsx (l : List Char) : Bool :=
  5 ≤ l.length && l.drop (l.length - 5) == ['.', 'x', 'l', 's', 'x']

/-- The file-key derivation (src/api/main.py lines 66-73): take the last
path segment of the entry name, split it on "-" and take the fifth field
when there are more than four, else the whole base name; strip a
trailing ".xlsx". -/
def fileKeyOf (name : String) : String :=
  let base := (splitOnChar '/' name.data).getLastD []
  let parts := splitOnChar '-' base
  let key := if 4 < parts.length then parts.getD 4 [] else base
  if endsWithXlsx key then ⟨key.take (key.length - 5)⟩ else ⟨key⟩

/-- pandas `df.shape[1]` for a `header=None` read: the width of the
rectangularized frame, the longest raw row. -/
def gridNcols (g : List (List (Option Val))) : Nat :=
  g.foldl (fun a r => max a r.length) 0

/-- Column `j` holds no value in any row. -/
def colIsEmpty (g : List (List (Option Val))) (j : Nat) : Bool :=
  g.all (fun r => r.getD j none == none)

/-- `df.dropna(axis=1, how="all")`: keep exactly the columns holding at
least one value, in order. -/
def dropEmptyCols (g : List (List (Option Val))) : List (List (Option Val)) :=
  g.map (fun r => ((List.range (gridNcols g)).filter
    (fun j => !colIsEmpty g j)).map (fun j => r.getD j none))

/-- The number of columns surviving `dropna(axis=1, how="all")`. -/
def keptCols (g : List (List (Option Val))) : Nat :=
  ((List.range (gridNcols g)).filter (fun j => !colIsEmpty g j)).length

/-- `.iloc[3:, 1:]` (discard the first three rows and the first
remaining column) followed by `df[df.iloc[:, 0].notna()]` (keep only the
rows whose first remaining column holds a value). -/
def sheetPipeline (g : List (List (Option Val))) : List (List (Option Val)) :=
  (((dropEmptyCols g).drop 3).map (fun r => r.drop 1)).filter
    (fun r => r.getD 0 none != none)

/-- Result of reading one prefix-matching sheet in `merge_archive`
(src/api/main.py lines 79-87): a sheet with at most one raw column is
skipped (the `continue`); a sheet left with no columns after `dropna`
and `.iloc[3:, 1:]` raises (`df.iloc[:, 0]` is out of bounds), aborting
the rest of the entry; otherwise the trimmed block is produced. -/
inductive SheetRes where
  | skip
  | err
  | blk (rows : List (List (Option Val)))
deriving DecidableEq

def readHS (g : List (List (Option Val))) : SheetRes :=
  if gridNcols g ≤ 1 then .skip
  else if keptCols g ≤ 1 then .err
  else .blk (sheetPipeline g)

/-- `df.insert(0, "Sheet", sheet); df.insert(0, "File", file_key)`. -/
def tagBlock (fileKey sheetName : String) (rows : List (List (Option Val))) :
    List (List (Option Val)) :=
  rows.map (fun r => some (.str fileKey) :: some (.str sheetName) :: r)

/-- The per-entry sheet loop over `hs_sheets`: an error while reading a
sheet aborts the remaining sheets of this entry, but blocks already
appended to `all_frames` stay. -/
def entryBlocksGo (fk : String) :
    List (String × List (List (Option Val))) → List (List (List (Option Val)))
  | [] => []
  | (nm, g) :: rest =>
    match readHS g with
    | .skip => entryBlocksGo fk rest
    | .err => []
    | .blk rows => tagBlock fk nm rows :: entryBlocksGo fk rest

def entryBlocks (fk : String) (sheets : List (String × List (List (Option Val)))) :
    List (List (List (Option Val))) :=
  entryBlocksGo fk (sheets.filter (fun p => startsWithHS p.1))

def errNoSheetsMsg : String := "未找到任何符合条件的 Sheet"

/-- `merge_archive` after archive extraction (src/api/main.py lines
64-97): collect every entry's tagged blocks; when no block at all was
collected answer the 400 error, else the blocks that `pd.concat` then
joins into one table. -/
def merge_archive (entries : List (String × List (String × List (List (Option Val))))) :
    Except String (List (List (List (Option Val)))) :=
  let all_frames := (entries.map (fun e => entryBlocks (fileKeyOf e.1) e.2)).flatten
  if all_frames.isEmpty then .error errNoSheetsMsg else .ok all_frames

theorem entryBlocksGo_skip (fk nm : String) (g : List (List (Option Val)))
    (hskip : readHS g = .skip) (l1 l2 : List (String × List (List (Option Val)))) :
    entryBlocksGo fk (l1 ++ (nm, g) :: l2) = entryBlocksGo fk (l1 ++ l2) := by
  induction l1 with
  | nil => simp [entryBlocksGo, hskip]
  | cons h t ih =>
    obtain ⟨hnm, hg⟩ := h
    simp only [List.cons_append, entryBlocksGo]
    cases readHS hg <;> simp [ih]

/-- C10: a prefix-matching sheet whose raw content has at most one
column is silently skipped: it contributes no block and raises no error
(removing it from its entry leaves the entry's block list unchanged for
any file key), and since the no-matching-sheets failure fires only when
no block at all was collected, such a sheet does not by itself trigger
it — whenever some other sheet of the entry contributes a block the
merge still succeeds, with the same result. -/
theorem one_column_sheet_skipped (nm : String) (g : List (List (Option Val)))
    (pre post : List (String × List (List (Option Val))))
    (hpre : startsWithHS nm = true) (hw : gridNcols g ≤ 1) :
    (∀ fk, entryBlocks fk (pre ++ (nm, g) :: post) = entryBlocks fk (pre ++ post))
    ∧ ∀ ename rest,
        entryBlocks (fileKeyOf ename) (pre ++ post) ≠ [] →
        merge_archive ((ename, pre ++ (nm, g) :: post) :: rest)
          = merge_archive ((ename, pre ++ post) :: rest)
        ∧ ∃ blocks, merge_archive ((ename, pre ++ (nm, g) :: post) :: rest)
            = .ok blocks := by
  have hskip : readHS g = .skip := by simp [readHS, hw]
  have ha : ∀ fk, entryBlocks fk (pre ++ (nm, g) :: post)
      = entryBlocks fk (pre ++ post) := by
    intro fk
    unfold entryBlocks
    rw [List.filter_append, List.filter_cons, List.filter_append]
    simp only [hpre, if_true]
    exact entryBlocksGo_skip fk nm g hskip _ _
  refine ⟨ha, fun ename rest hne => ?_⟩
  have hmerge : merge_archive ((ename, pre ++ (nm, g) :: post) :: rest)
      = merge_archive ((ename, pre ++ post) :: rest) := by
    simp only [merge_archive, List.map_cons]
    rw [ha (fileKeyOf ename)]
  refine ⟨hmerge, ?_⟩
  rw [hmerge]
  obtain ⟨b, bs, hbs⟩ := List.exists_cons_of_ne_nil hne
  refine ⟨(((ename, pre ++ post) :: rest).map
      (fun e => entryBlocks (fileKeyOf e.1) e.2)).flatten, ?_⟩
  simp only [merge_archive]
  rw [if_neg ?_]
  simp only [List.map_cons, List.flatten_cons, hbs]
  simp

def goodGrid : List (List (Option Val)) :=
  [[some (.str "h"), some (.str "h2"), some (.str "h3")],
   [none, none, none],
   [none, none, none],
   [some (.num 9), some (.str "r1"), some (.str "r2")],
   [some (.num 10), none, some (.str "r3")]]

theorem one_column_sheet_skipped_witness :
    (startsWithHS "HS1" = true ∧ gridNcols [[some (Val.num 1)], [none]] ≤ 1
      ∧ entryBlocks (fileKeyOf "a-b-c-d-k1-x.xlsx") [("HS2", goodGrid)] ≠ [])
    ∧ entryBlocks "k" ([] ++ ("HS1", [[some (Val.num 1)], [none]]) :: [("HS2", goodGrid)])
        = entryBlocks "k" ([] ++ [("HS2", goodGrid)])
    ∧ ∃ blocks,
        merge_archive [("a-b-c-d-k1-x.xlsx",
          [] ++ ("HS1", [[some (Val.num 1)], [none]]) :: [("HS2", goodGrid)])]
          = .ok blocks :=
  ⟨⟨by decide, by decide, by decide⟩,
   (one_column_sheet_skipped "HS1" [[some (Val.num 1)], [none]] [] [("HS2", goodGrid)]
     (by decide) (by decide)).1 "k",
   ((one_column_sheet_skipped "HS1" [[some (Val.num 1)], [none]] [] [("HS2", goodGrid)]
     (by decide) (by decide)).2 "a-b-c-d-k1-x.xlsx" [] (by decide)).2⟩

/-- C9 counterexample: an entry whose only prefix-matching sheet has a
single raw column yields no block at all, while the claim's final clause
requires every prefix-matching sheet to contribute one block. -/
theorem sheet_block_counterexample :
    ([("HS1", [[some (Val.num 1)], [some (Val.num 2)]])].filter
        (fun p => startsWithHS p.1)).length = 1
    ∧ entryBlocks "f" [("HS1", [[some (Val.num 1)], [some (Val.num 2)]])] = [] :=
  ⟨by decide, by decide⟩

/-- C9 as amended: for every kept archive entry whose prefix-matching
sheets all read without raising — a prefix sheet with at least two raw
columns but fewer than two non-fully-empty columns raises and cuts the
entry's remaining sheets off — the entry contributes exactly one block
per prefix-matching sheet with at least two raw columns, namely the
sheet read with no header inference, fully-empty columns dropped, the
first three rows and the first remaining column discarded, rows with an
empty first remaining column dropped, and the file/sheet tag columns
prepended; prefix sheets with at most one raw column contribute
nothing. -/
theorem hs_sheet_blocks (fk : String)
    (sheets : List (String × List (List (Option Val))))
    (hnoerr : ∀ p ∈ sheets, startsWithHS p.1 = true → readHS p.2 ≠ .err) :
    entryBlocks fk sheets
      = (sheets.filter (fun p => startsWithHS p.1 && 2 ≤ gridNcols p.2)).map
          (fun p => tagBlock fk p.1 (sheetPipeline p.2)) := by
  induction sheets with
  | nil => rfl
  | cons p rest ih =>
    obtain ⟨nm, g⟩ := p
    have hrest := ih (fun q hq hq2 => hnoerr q (List.mem_cons_of_mem _ hq) hq2)
    by_cases hp : startsWithHS nm = true
    · by_cases hw : 2 ≤ gridNcols g
      · have hne := hnoerr (nm, g) (List.mem_cons_self _ _) hp
        have h1 : ¬ gridNcols g ≤ 1 := by omega
        have hblk : readHS g = .blk (sheetPipeline g) := by
          by_cases hk : keptCols g ≤ 1
          · exact absurd (by simp [readHS, h1, hk]) hne
          · simp [readHS, h1, hk]
        have hpred : (startsWithHS nm && decide (2 ≤ gridNcols g)) = true := by
          simp [hp, hw]
        unfold entryBlocks
        rw [List.filter_cons]
        simp only [hp, if_pos]
        rw [show entryBlocksGo fk ((nm, g) :: rest.filter (fun p => startsWithHS p.1))
            = tagBlock fk nm (sheetPipeline g)
              :: entryBlocksGo fk (rest.filter (fun p => startsWithHS p.1)) by
          simp [entryBlocksGo, hblk]]
        rw [List.filter_cons, hpred]
        simp only [if_pos]
        rw [List.map_cons]
        exact congrArg _ hrest
      · have hskip : readHS g = .skip := by simp [readHS, show gridNcols g ≤ 1 by omega]
        have hpred : (startsWithHS nm && decide (2 ≤ gridNcols g)) = false := by
          simp [hw]
        unfold entryBlocks
        rw [List.filter_cons]
        simp only [hp, if_pos]
        rw [show entryBlocksGo fk ((nm, g) :: rest.filter (fun p => startsWithHS p.1))
            = entryBlocksGo fk (rest.filter (fun p => startsWithHS p.1)) by
          simp [entryBlocksGo, hskip]]
        rw [List.filter_cons, hpred]
        simp only [Bool.false_eq_true, if_false]
        exact hrest
    · have hpb : startsWithHS nm = false := by
        cases hx : startsWithHS nm
        · rfl
        · exact absurd hx hp
      have hpred : (startsWithHS nm && decide (2 ≤ gridNcols g)) = false := by
        simp [hpb]
      unfold entryBlocks
      rw [List.filter_cons, hpb]
      simp only [Bool.false_eq_true, if_false]
      rw [List.filter_cons, hpred]
      simp only [Bool.false_eq_true, if_false]
      exact hrest

theorem hs_sheet_blocks_witness :
    (∀ p ∈ [("HS1", goodGrid), ("notes", goodGrid),
        ("HS2", [[some (Val.num 5)]])],
      startsWithHS p.1 = true → readHS p.2 ≠ SheetRes.err)
    ∧ entryBlocks "k1" [("HS1", goodGrid), ("notes", goodGrid),
        ("HS2", [[some (Val.num 5)]])]
      = ([("HS1", goodGrid), ("notes", goodGrid),
          ("HS2", [[some (Val.num 5)]])].filter
            (fun p => startsWithHS p.1 && 2 ≤ gridNcols p.2)).map
          (fun p => tagBlock "k1" p.1 (sheetPipeline p.2))
    ∧ entryBlocks "k1" [("HS1", goodGrid), ("notes", goodGrid),
        ("HS2", [[some (Val.num 5)]])]
      = [[[some (.str "k1"), some (.str "HS1"), some (.str "r1"), some (.str "r2")]]] :=
  ⟨by decide,
   hs_sheet_blocks "k1" [("HS1", goodGrid), ("notes", goodGrid),
     ("HS2", [[some (Val.num 5)]])] (by decide),
   by decide⟩
